import Mathlib

/-!
Verification development for the batch-generator module of the `mtg` repository
(`src/mtg/ml/generator.py`).  The Python classes `MTGDataGenerator`,
`DraftGenerator`, `DeckGenerator` and the factory `create_train_and_val_gens`
are shallowly embedded below: pandas/numpy matrices become `List`-based
tensors over `ℚ`, numpy's random draws become explicit parameters (a stream of
naturals for `np.random.shuffle`, one rational in `[0,1)` per row for
`np.random.rand`), and fallible numpy operations (reshape, attribute access)
return `Option`.
-/

namespace MtgGen

/-- Splits a list into consecutive chunks of size `n` (numpy row-major
reshape of a flat array into rows of width `n`).  With `n = 0` or an empty
list it returns `[]`. -/
def chunkList (n : Nat) (l : List ℚ) : List (List ℚ) :=
  if h : n = 0 ∨ l = [] then [] else l.take n :: chunkList n (l.drop n)
termination_by l.length
decreasing_by
  push_neg at h
  have h1 : 0 < l.length := List.length_pos.mpr h.2
  have h2 : 0 < n := Nat.pos_of_ne_zero h.1
  simp only [List.length_drop]
  omega

/-- Splits a list of lists into consecutive chunks of size `n` (outer level of
a numpy 3-d reshape). -/
def chunkList2 (n : Nat) (l : List (List ℚ)) : List (List (List ℚ)) :=
  if h : n = 0 ∨ l = [] then [] else l.take n :: chunkList2 n (l.drop n)
termination_by l.length
decreasing_by
  push_neg at h
  have h1 : 0 < l.length := List.length_pos.mpr h.2
  have h2 : 0 < n := Nat.pos_of_ne_zero h.1
  simp only [List.length_drop]
  omega

/-- `numpy.cumsum` of a row: entry `i` is the sum of the first `i+1`
elements. -/
def cumsum (l : List ℚ) : List ℚ :=
  (List.range l.length).map (fun i => (l.take (i + 1)).sum)

/-- Index of the first `true` in a boolean list, if any. -/
def firstTrue : List Bool → Option Nat
  | [] => none
  | b :: bs => if b then some 0 else (firstTrue bs).map (· + 1)

/-- `numpy.argmax` on a boolean vector: index of the first `true`, and `0`
when every entry is `false` (argmax of a constant vector is `0`). -/
def npArgmaxBool (l : List Bool) : Nat :=
  (firstTrue l).getD 0

/-- `pandas.Series.unique`: distinct values in order of first occurrence. -/
def npUnique : List Nat → List Nat
  | [] => []
  | a :: as => a :: npUnique (as.filter (fun x => x ≠ a))
termination_by l => l.length
decreasing_by
  simp only [List.length_cons]
  exact Nat.lt_succ_of_le (List.length_filter_le _ _)

/-- Maximum of a list of naturals (`pandas.Series.max`), `0` on `[]`. -/
def listMax (l : List Nat) : Nat :=
  l.foldr max 0

/-- Swap the entries at positions `i` and `j` of a list; identity when either
index is out of range (in `np.random.shuffle` both are always in range). -/
def swapL (l : List Nat) (i j : Nat) : List Nat :=
  match l[i]?, l[j]? with
  | some a, some b => (l.set i b).set j a
  | _, _ => l

/-- The Fisher-Yates loop of `np.random.shuffle`: for `i = n-1, …, 1` draw
`j` uniformly from `[0, i+1)` and swap positions `i` and `j`.  The random
outcome is modelled by the stream `js`; the draw for step `i` is
`js-value mod (i+1)`, which ranges over exactly `[0, i+1)`. -/
def fyAux : Nat → List Nat → List Nat → List Nat
  | 0, _, l => l
  | _ + 1, [], l => l
  | k + 1, j :: js, l => fyAux k js (swapL l (k + 1) (j % (k + 2)))

/-- `np.random.shuffle` on a list, with the random draws supplied in `js`. -/
def fisherYates (l : List Nat) (js : List Nat) : List Nat :=
  fyAux (l.length - 1) js l

/-- A row of the card table: `(idx, name)`. -/
abbrev CardRow := Int × String

/-- Vocabulary construction done once in `MTGDataGenerator.__init__`:
`cards.sort_values(by='idx')` (a stable sort ascending by `idx`, modelled
by insertion sort), then, when `exclude_basics`, drop the first five rows
(the basic lands) and renumber `idx` by subtracting 5. -/
def buildVocab (cards : List CardRow) (exclude_basics : Bool) : List CardRow :=
  let sorted := cards.insertionSort (fun a b => a.1 ≤ b.1)
  if exclude_basics then (sorted.drop 5).map (fun r => (r.1 - 5, r.2)) else sorted

/-- `MTGDataGenerator.card_name_to_idx`: first row of the vocabulary whose
name matches, projected to `idx` (`.iloc[0]` on an empty selection raises,
modelled by `none`).  The `exclude_basics` argument is accepted and ignored,
exactly as in the source. -/
def card_name_to_idx (cards : List CardRow) (card_name : String)
    (_exclude_basics : Bool) : Option Int :=
  ((cards.filter (fun r => r.2 = card_name)).head?).map (fun r => r.1)

/-- `MTGDataGenerator.card_idx_to_name`: first row of the vocabulary whose
`idx` matches, projected to the name.  The `exclude_basics` argument is
accepted and ignored, exactly as in the source. -/
def card_idx_to_name (cards : List CardRow) (card_idx : Int)
    (_exclude_basics : Bool) : Option String :=
  ((cards.filter (fun r => r.1 = card_idx)).head?).map (fun r => r.2)

/-- `MTGDataGenerator.reset_indices`: `np.arange(size)`, shuffled in place
when `shuffle` is enabled.  `js` is the random outcome consumed by
`np.random.shuffle`. -/
def reset_indices (size : Nat) (shuffle : Bool) (js : List Nat) : List Nat :=
  let indices := List.range size
  if shuffle then fisherYates indices js else indices

/-- The state shared by all generators (the fields of `MTGDataGenerator`
relevant to indexing, batching and vocabulary lookup). -/
structure GenCore where
  cards : List CardRow
  n_cards : Nat
  batch_size : Nat
  shuffle : Bool
  to_fit : Bool
  size : Nat
  indices : List Nat

/-- `MTGDataGenerator.__init__` restricted to its generic bookkeeping: builds
the vocabulary, records `size = data.shape[0]` (supplied as the row count
`nrows`) and generates the initial index permutation. -/
def mkGenCore (cards : List CardRow) (exclude_basics : Bool) (batch_size : Nat)
    (shuffle to_fit : Bool) (nrows : Nat) (js : List Nat) : GenCore :=
  let vocab := buildVocab cards exclude_basics
  { cards := vocab
    n_cards := vocab.length
    batch_size := batch_size
    shuffle := shuffle
    to_fit := to_fit
    size := nrows
    indices := reset_indices nrows shuffle js }

/-- `MTGDataGenerator.__len__`: `self.size // self.batch_size`. -/
def numBatches (g : GenCore) : Nat :=
  g.size / g.batch_size

/-- The index slice taken by `MTGDataGenerator.__getitem__`:
`self.indices[batch_number*batch_size : (batch_number+1)*batch_size]`. -/
def getBatchIndices (g : GenCore) (batch_number : Nat) : List Nat :=
  (g.indices.drop (batch_number * g.batch_size)).take g.batch_size

/-- `MTGDataGenerator.on_epoch_end`: regenerate the index permutation. -/
def on_epoch_end (g : GenCore) (js : List Nat) : GenCore :=
  { g with indices := reset_indices g.size g.shuffle js }

/-- The sample-weight computation shared by `DraftGenerator.generate_data`
and `DeckGenerator.generate_data`: when the `ml_weights` column is present,
slice it positionally at the batch indices and divide by the slice's sum;
otherwise the weights stay unset. -/
def renormWeights (weights : Option (List ℚ)) (indices : List Nat) :
    Option (List ℚ) :=
  weights.map (fun w =>
    let sel := indices.map (fun i => w.getD i 0)
    sel.map (fun x => x / sel.sum))

/-- One row of `DeckGenerator.get_vectorized_sample`: normalize the row by
its sum, take the cumulative distribution, compare one uniform draw `u`
against it and take `argmax` of the boolean vector.  (When the row sum is
zero, numpy produces NaN probabilities and every comparison is `false`; here
division by zero yields `0` and, for `0 ≤ u`, every comparison is likewise
`false` — both make `argmax` return `0`.) -/
def vSampleRow (row : List ℚ) (u : ℚ) : Nat :=
  let probabilities := row.map (fun x => x / row.sum)
  let cumulative_dist := cumsum probabilities
  npArgmaxBool (cumulative_dist.map (fun c => decide (u < c)))

/-- `DeckGenerator.get_vectorized_sample` on a matrix: one uniform draw per
row (`np.random.rand(len(cumulative_dist), 1)`), applied row-wise. -/
def get_vectorized_sample (mtx : List (List ℚ)) (us : List ℚ) : List Nat :=
  (mtx.zip us).map (fun p => vSampleRow p.1 p.2)

/-- `DeckGenerator.sample_card_pairs`: sample anchors from the deck rows,
zero the anchor's entry in each deck row and each sideboard row, and sample
the positive and negative indices from the zeroed matrices. -/
def sample_card_pairs (decks sideboards : List (List ℚ))
    (u1 u2 u3 : List ℚ) : List Nat × List Nat × List Nat :=
  let anchors := get_vectorized_sample decks u1
  let decks_without_anchors :=
    (decks.zip anchors).map (fun p => p.1.set p.2 0)
  let sideboards_without_anchors :=
    (sideboards.zip anchors).map (fun p => p.1.set p.2 0)
  let positive_samples := get_vectorized_sample decks_without_anchors u2
  let negative_samples := get_vectorized_sample sideboards_without_anchors u3
  (anchors, positive_samples, negative_samples)

/-- One row of the deck dataset: the deck and sideboard composition vectors
over the vocabulary, and the five-column basic-land sub-vectors. -/
structure DeckRow where
  deck : List ℚ
  sideboard : List ℚ
  deckBasics : List ℚ
  sideboardBasics : List ℚ

/-- `DeckGenerator` state: the column-group matrices extracted by
`generate_global_data` (for `card_col_` groups `deck` and `sideboard`), the
basics matrices — present only when `store_basics` — and the optional
`ml_weights` column. -/
structure DeckGen where
  core : GenCore
  deck : List (List ℚ)
  sideboard : List (List ℚ)
  deck_basics : Option (List (List ℚ))
  sideboard_basics : Option (List (List ℚ))
  weights : Option (List ℚ)

/-- `DeckGenerator.__init__`: generic construction plus the deck/sideboard
matrices; the basics matrices are set only under `store_basics` (the
attribute does not exist otherwise, modelled by `none`).  `ml_weights` is
the optional weight column of `data`. -/
def mkDeckGen (data : List DeckRow) (ml_weights : Option (List ℚ))
    (cards : List CardRow) (batch_size : Nat)
    (shuffle to_fit exclude_basics store_basics : Bool)
    (js : List Nat) : DeckGen :=
  { core := mkGenCore cards exclude_basics batch_size shuffle to_fit
      data.length js
    deck := data.map (fun r => r.deck)
    sideboard := data.map (fun r => r.sideboard)
    deck_basics :=
      if store_basics then some (data.map (fun r => r.deckBasics)) else none
    sideboard_basics :=
      if store_basics then some (data.map (fun r => r.sideboardBasics))
      else none
    weights := ml_weights }

/-- The tuple returned by `DeckGenerator.generate_data`:
`((pools, anchor, pos, neg), (basics, decks), weights)`. -/
abbrev DeckBatch :=
  (List (List ℚ) × List Nat × List Nat × List Nat) ×
    (List (List ℚ) × List (List ℚ)) × Option (List ℚ)

/-- `DeckGenerator.generate_data`: slice the deck, sideboard and basics
matrices at the batch indices, sum deck and sideboard into the pool matrix,
renormalize the weights and draw the anchor/positive/negative card triples.
Reading `self.deck_basics` raises `AttributeError` when the attribute was
never created (`store_basics=False`), modelled by `none`. -/
def deckGenerateData (g : DeckGen) (indices : List Nat)
    (u1 u2 u3 : List ℚ) : Option DeckBatch :=
  match g.deck_basics with
  | none => none
  | some deck_basics =>
    let decks := indices.map (fun i => g.deck.getD i [])
    let sideboards := indices.map (fun i => g.sideboard.getD i [])
    let basics := indices.map (fun i => deck_basics.getD i [])
    let pools := List.zipWith (List.zipWith (· + ·)) decks sideboards
    let weights := renormWeights g.weights indices
    let s := sample_card_pairs decks sideboards u1 u2 u3
    some ((pools, s.1, s.2.1, s.2.2), (basics, decks), weights)

/-- `MTGDataGenerator.__getitem__` specialised to `DeckGenerator`: slice the
index permutation and delegate to `generate_data`. -/
def deckGetBatch (g : DeckGen) (batch_number : Nat) (u1 u2 u3 : List ℚ) :
    Option DeckBatch :=
  deckGenerateData g (getBatchIndices g.core batch_number) u1 u2 u3

/-- One row of the draft dataset: the scalar columns and the per-card
`pack_card` and `pool` column groups. -/
structure DraftRow where
  draft_id : Nat
  position : Nat
  pack_card : List ℚ
  pool : List ℚ
  pick : Nat
  pack_number : Nat
  pick_number : Nat

/-- The derived linear position index
`pack_number * (pick_number.max() + 1) + pick_number` computed in
`DraftGenerator.generate_global_data`. -/
def posIndexOf (maxPickNumber : Nat) (r : DraftRow) : Nat :=
  r.pack_number * (maxPickNumber + 1) + r.pick_number

/-- `DraftGenerator` state: the distinct draft ids, the sequence length `t`,
the stored rows (the frame indexed by `(draft_id, position)`), the column
count of the `pack_card` frame, the dataset-wide maximum `pick_number` and
the optional `ml_weights` column. -/
structure DraftGen where
  core : GenCore
  draft_ids : List Nat
  t : Nat
  rows : List DraftRow
  packCols : Nat
  maxPickNumber : Nat
  weights : Option (List ℚ)

/-- `DraftGenerator.__init__` together with its `generate_global_data`:
`draft_ids = data['draft_id'].unique()`, `t = data['position'].max() + 1`,
and — after the base constructor ran — `size` is overwritten to
`len(draft_ids)` and the indices are regenerated (second random outcome
`js2`).  `packCols` is the column count of the `pack_card` frame. -/
def mkDraftGen (data : List DraftRow) (ml_weights : Option (List ℚ))
    (cards : List CardRow) (batch_size : Nat)
    (shuffle to_fit exclude_basics : Bool)
    (js1 js2 : List Nat) : DraftGen :=
  let ids := npUnique (data.map (fun r => r.draft_id))
  let core0 := mkGenCore cards exclude_basics batch_size shuffle to_fit
    data.length js1
  { core := { core0 with
      size := ids.length
      indices := reset_indices ids.length shuffle js2 }
    draft_ids := ids
    t := listMax (data.map (fun r => r.position)) + 1
    rows := data
    packCols := ((data.head?).map (fun r => r.pack_card.length)).getD 0
    maxPickNumber := listMax (data.map (fun r => r.pick_number))
    weights := ml_weights }

/-- A rank-3 tensor as nested lists. -/
abbrev Tensor3 := List (List (List ℚ))

/-- `values.reshape(k, t, n)` on a gathered matrix given as a list of rows:
flatten in row-major order and re-chunk into `k` blocks of `t` rows of width
`n`; fails (`ValueError`) when the element count is not `k*t*n`. -/
def reshape3 (rows : List (List ℚ)) (k t n : Nat) : Option Tensor3 :=
  let flat := rows.flatMap id
  if flat.length = k * t * n then some (chunkList2 t (chunkList n flat))
  else none

/-- `np.concatenate([a, b], axis=-1)` for two rank-3 tensors: concatenate
matching innermost rows. -/
def concatLast (a b : Tensor3) : Tensor3 :=
  List.zipWith (List.zipWith (· ++ ·)) a b

/-- `x` has shape `(k, t, n)`. -/
def shape3 (x : Tensor3) (k t n : Nat) : Prop :=
  x.length = k ∧ (∀ blk ∈ x, blk.length = t) ∧
    ∀ blk ∈ x, ∀ rw ∈ blk, rw.length = n

/-- The tuple returned by `DraftGenerator.generate_data`:
`((draft_info, positions), picks, weights)`. -/
abbrev DraftBatch := (Tensor3 × Tensor3) × Tensor3 × Option (List ℚ)

/-- The `.loc[draft_ids]` gather on the `(draft_id, position)`-indexed
frame: for each requested id, all rows carrying that id, in stored order. -/
def locGather (rows : List DraftRow) (ids : List Nat) : List DraftRow :=
  ids.flatMap (fun d => rows.filter (fun r => r.draft_id = d))

/-- The rows selected by `DraftGenerator.generate_data` for a batch:
`self.draft_ids[indices]` followed by the `.loc` gather. -/
def draftSel (g : DraftGen) (indices : List Nat) : List DraftRow :=
  locGather g.rows (indices.map (fun i => g.draft_ids.getD i 0))

/-- `DraftGenerator.generate_data`: look up the draft ids at the batch
indices, gather their rows, reshape the pack/pool/pick/position columns to
`(k, t, ·)` (the pool reshape uses the `pack_card` column count, as in the
source), concatenate packs and pools along the last axis and renormalize the
weights. -/
def draftGenerateData (g : DraftGen) (indices : List Nat) :
    Option DraftBatch :=
  let sel := draftSel g indices
  match reshape3 (sel.map (fun r => r.pack_card)) indices.length g.t g.packCols,
        reshape3 (sel.map (fun r => r.pool)) indices.length g.t g.packCols,
        reshape3 (sel.map (fun r => [(r.pick : ℚ)])) indices.length g.t 1,
        reshape3 (sel.map (fun r => [(posIndexOf g.maxPickNumber r : ℚ)]))
          indices.length g.t 1 with
  | some packs, some pools, some picks, some positions =>
    some ((concatLast packs pools, positions), picks,
      renormWeights g.weights indices)
  | _, _, _, _ => none

/-- The tail of `create_train_and_val_gens` (base-generator case): the
train/validation split itself only determines the two partitions' row
counts, which are taken as inputs (`test_rows = none` models `train_p ==
1.0`, where no validation generator is produced).  The validation batch size
is `test_data.shape[0] // len(train_gen)`, passed to the validation
generator without any guard. -/
def create_train_and_val_gens (train_rows : Nat) (test_rows : Option Nat)
    (cards : List CardRow) (train_batch_size : Nat)
    (shuffle to_fit exclude_basics : Bool)
    (js1 js2 : List Nat) : GenCore × Option GenCore :=
  let train_gen := mkGenCore cards exclude_basics train_batch_size shuffle
    to_fit train_rows js1
  match test_rows with
  | none => (train_gen, none)
  | some tr =>
    let n_train_batches := numBatches train_gen
    let val_batch_size := tr / n_train_batches
    (train_gen,
      some (mkGenCore cards exclude_basics val_batch_size shuffle to_fit
        tr js2))

/-! ### Library-style helper lemmas -/

theorem sum_map_div (l : List ℚ) (s : ℚ) :
    (l.map (fun x => x / s)).sum = l.sum / s := by
  induction l with
  | nil => simp
  | cons a as ih => simp [ih, add_div]

theorem sum_pos_of_mem (l : List ℚ) (hnn : ∀ x ∈ l, 0 ≤ x)
    (y : ℚ) (hy : y ∈ l) (hypos : 0 < y) : 0 < l.sum := by
  induction l with
  | nil => cases hy
  | cons a as ih =>
    rcases List.mem_cons.mp hy with h | h
    · have has : 0 ≤ as.sum := List.sum_nonneg (fun x hx => hnn x (by simp [hx]))
      simp only [List.sum_cons]
      subst h
      linarith
    · have ha : 0 ≤ a := hnn a (by simp)
      have := ih (fun x hx => hnn x (by simp [hx])) h
      simp only [List.sum_cons]
      linarith

theorem chunkList_shape {n : Nat} (hn : 0 < n) :
    ∀ (m : Nat) (l : List ℚ), l.length = m * n →
      (chunkList n l).length = m ∧ (∀ c ∈ chunkList n l, c.length = n) ∧
        (∀ c ∈ chunkList n l, ∀ x ∈ c, x ∈ l) := by
  intro m
  induction m with
  | zero =>
    intro l hl
    have hnil : l = [] := List.eq_nil_of_length_eq_zero (by simpa using hl)
    subst hnil
    rw [chunkList, dif_pos (Or.inr rfl)]
    simp
  | succ m ih =>
    intro l hl
    have hmn : l.length = m * n + n := by rw [hl, Nat.succ_mul]
    have hne : l ≠ [] := by
      intro he
      rw [he] at hmn
      simp at hmn
      omega
    rw [chunkList, dif_neg (by push_neg; exact ⟨hn.ne', hne⟩)]
    have hdrop : (l.drop n).length = m * n := by
      simp only [List.length_drop]
      omega
    have htake : (l.take n).length = n := by
      simp only [List.length_take]
      omega
    obtain ⟨ih1, ih2, ih3⟩ := ih (l.drop n) hdrop
    refine ⟨by simp [ih1], ?_, ?_⟩
    · intro c hc
      rcases List.mem_cons.mp hc with h | h
      · rw [h]; exact htake
      · exact ih2 c h
    · intro c hc x hx
      rcases List.mem_cons.mp hc with h | h
      · exact List.mem_of_mem_take (by rw [h] at hx; exact hx)
      · exact List.mem_of_mem_drop (ih3 c h x hx)

theorem chunkList2_shape {n : Nat} (hn : 0 < n) :
    ∀ (m : Nat) (l : List (List ℚ)), l.length = m * n →
      (chunkList2 n l).length = m ∧ (∀ c ∈ chunkList2 n l, c.length = n) ∧
        (∀ c ∈ chunkList2 n l, ∀ x ∈ c, x ∈ l) := by
  intro m
  induction m with
  | zero =>
    intro l hl
    have hnil : l = [] := List.eq_nil_of_length_eq_zero (by simpa using hl)
    subst hnil
    rw [chunkList2, dif_pos (Or.inr rfl)]
    simp
  | succ m ih =>
    intro l hl
    have hmn : l.length = m * n + n := by rw [hl, Nat.succ_mul]
    have hne : l ≠ [] := by
      intro he
      rw [he] at hmn
      simp at hmn
      omega
    rw [chunkList2, dif_neg (by push_neg; exact ⟨hn.ne', hne⟩)]
    have hdrop : (l.drop n).length = m * n := by
      simp only [List.length_drop]
      omega
    have htake : (l.take n).length = n := by
      simp only [List.length_take]
      omega
    obtain ⟨ih1, ih2, ih3⟩ := ih (l.drop n) hdrop
    refine ⟨by simp [ih1], ?_, ?_⟩
    · intro c hc
      rcases List.mem_cons.mp hc with h | h
      · rw [h]; exact htake
      · exact ih2 c h
    · intro c hc x hx
      rcases List.mem_cons.mp hc with h | h
      · exact List.mem_of_mem_take (by rw [h] at hx; exact hx)
      · exact List.mem_of_mem_drop (ih3 c h x hx)

theorem length_cumsum (l : List ℚ) : (cumsum l).length = l.length := by
  simp [cumsum]

theorem getElem_cumsum (l : List ℚ) (i : Nat) (h : i < (cumsum l).length) :
    (cumsum l)[i] = (l.take (i + 1)).sum := by
  simp [cumsum]

theorem firstTrue_spec :
    ∀ {l : List Bool} {k : Nat}, firstTrue l = some k →
      k < l.length ∧ l.getD k false = true ∧
        ∀ j, j < k → l.getD j false = false := by
  intro l
  induction l with
  | nil => intro k h; simp [firstTrue] at h
  | cons b bs ih =>
    intro k h
    cases b with
    | true =>
      have hk : k = 0 := by
        simp [firstTrue] at h
        omega
      subst hk
      exact ⟨by simp, by simp, fun j hj => absurd hj (by omega)⟩
    | false =>
      have hstep : firstTrue (false :: bs) = (firstTrue bs).map (· + 1) := by
        simp [firstTrue]
      rw [hstep] at h
      rcases Option.map_eq_some'.mp h with ⟨k0, hk0, hplus⟩
      obtain ⟨h1, h2, h3⟩ := ih hk0
      subst hplus
      refine ⟨by simp only [List.length_cons]; omega, by simpa using h2, ?_⟩
      intro j hj
      cases j with
      | zero => simp
      | succ j0 => simpa using h3 j0 (by omega)

theorem firstTrue_isSome {l : List Bool} (h : true ∈ l) :
    ∃ k, firstTrue l = some k := by
  induction l with
  | nil => cases h
  | cons b bs ih =>
    cases b with
    | true => exact ⟨0, by simp [firstTrue]⟩
    | false =>
      have hbs : true ∈ bs := by
        rcases List.mem_cons.mp h with h1 | h1
        · cases h1
        · exact h1
      obtain ⟨k, hk⟩ := ih hbs
      exact ⟨k + 1, by simp [firstTrue, hk]⟩

theorem firstTrue_eq_none {l : List Bool} (h : ∀ b ∈ l, b = false) :
    firstTrue l = none := by
  induction l with
  | nil => rfl
  | cons b bs ih =>
    have hb : b = false := h b (by simp)
    subst hb
    have hbs : firstTrue bs = none := ih (fun x hx => h x (by simp [hx]))
    simp [firstTrue, hbs]

theorem mem_npUnique : ∀ (l : List Nat) (x : Nat), x ∈ npUnique l ↔ x ∈ l
  | [], x => by rw [npUnique]
  | a :: as, x => by
    rw [npUnique]
    have ihm := mem_npUnique (as.filter (fun y => y ≠ a)) x
    by_cases hx : x = a
    · subst hx
      simp
    · simp only [List.mem_cons, ihm, List.mem_filter, decide_eq_true_eq,
        ne_eq]
      tauto
termination_by l => l.length
decreasing_by
  simp only [List.length_cons]
  exact Nat.lt_succ_of_le (List.length_filter_le _ _)

theorem nodup_npUnique : ∀ (l : List Nat), (npUnique l).Nodup
  | [] => by rw [npUnique]; exact List.nodup_nil
  | a :: as => by
    rw [npUnique]
    refine List.nodup_cons.mpr
      ⟨?_, nodup_npUnique (as.filter (fun y => y ≠ a))⟩
    intro hmem
    have := (mem_npUnique _ a).mp hmem
    simp [List.mem_filter] at this
termination_by l => l.length
decreasing_by
  simp only [List.length_cons]
  exact Nat.lt_succ_of_le (List.length_filter_le _ _)

theorem length_npUnique_eq_card (l : List Nat) :
    (npUnique l).length = l.toFinset.card := by
  have hset : (npUnique l).toFinset = l.toFinset := by
    ext x
    simp [List.mem_toFinset, mem_npUnique]
  rw [← hset, List.toFinset_card_of_nodup (nodup_npUnique l)]

theorem swapL_perm (l : List Nat) (i j : Nat) : (swapL l i j).Perm l := by
  rcases hi : l[i]? with _ | a
  all_goals rcases hj : l[j]? with _ | b
  · have heq : swapL l i j = l := by simp only [swapL, hi, hj]
    rw [heq]
  · have heq : swapL l i j = l := by simp only [swapL, hi, hj]
    rw [heq]
  · have heq : swapL l i j = l := by simp only [swapL, hi, hj]
    rw [heq]
  · have heq : swapL l i j = (l.set i b).set j a := by
      simp only [swapL, hi, hj]
    obtain ⟨hilt, hia⟩ := List.getElem?_eq_some_iff.mp hi
    obtain ⟨hjlt, hjb⟩ := List.getElem?_eq_some_iff.mp hj
    rw [heq, List.perm_iff_count]
    intro x
    have hjlt2 : j < (l.set i b).length := by
      rw [List.length_set]
      exact hjlt
    have hmid : (l.set i b)[j] = b := by
      rw [List.getElem_set]
      split
      · rfl
      · exact hjb
    have hmema : a ∈ l := by
      rw [← hia]
      exact List.getElem_mem hilt
    have houter := List.count_set a x (l.set i b) j hjlt2
    have hinner := List.count_set b x l i hilt
    rw [hmid] at houter
    rw [hia] at hinner
    set P : Nat := if (a == x) = true then 1 else 0 with hP
    set Q : Nat := if (b == x) = true then 1 else 0 with hQ
    have hPle : P ≤ List.count x l := by
      rw [hP]
      by_cases hax : (a == x) = true
      · rw [if_pos hax]
        exact List.count_pos_iff.mpr (eq_of_beq hax ▸ hmema)
      · rw [if_neg hax]
        exact Nat.zero_le _
    omega

theorem fyAux_perm : ∀ (i : Nat) (js l : List Nat), (fyAux i js l).Perm l := by
  intro i
  induction i with
  | zero => intro js l; rw [fyAux]
  | succ k ih =>
    intro js l
    cases js with
    | nil => rw [fyAux]
    | cons j js =>
      rw [fyAux]
      exact (ih js _).trans (swapL_perm l (k + 1) (j % (k + 2)))

theorem fisherYates_perm (l js : List Nat) : (fisherYates l js).Perm l :=
  fyAux_perm (l.length - 1) js l

theorem reset_indices_noshuffle (size : Nat) (js : List Nat) :
    reset_indices size false js = List.range size := by
  simp [reset_indices]

theorem reset_indices_perm (size : Nat) (shuffle : Bool) (js : List Nat) :
    (reset_indices size shuffle js).Perm (List.range size) := by
  cases shuffle with
  | false => rw [reset_indices_noshuffle]
  | true =>
    simp only [reset_indices, if_pos]
    exact fisherYates_perm (List.range size) js

theorem reset_indices_length (size : Nat) (shuffle : Bool) (js : List Nat) :
    (reset_indices size shuffle js).length = size := by
  rw [(reset_indices_perm size shuffle js).length_eq, List.length_range]

theorem getBatch_full_iff (g : GenCore) (hlen : g.indices.length = g.size)
    (hbs : 0 < g.batch_size) (b : Nat) :
    (getBatchIndices g b).length = g.batch_size ↔ b < numBatches g := by
  unfold getBatchIndices numBatches
  rw [List.length_take, List.length_drop, hlen]
  have hdiv : b + 1 ≤ g.size / g.batch_size ↔
      (b + 1) * g.batch_size ≤ g.size := Nat.le_div_iff_mul_le hbs
  rw [Nat.succ_mul] at hdiv
  omega

theorem getD_set_self_q (l : List ℚ) (i : Nat) (b : ℚ) (h : i < l.length) :
    (l.set i b).getD i 0 = b := by
  rw [List.getD_eq_getElem _ _ (by rw [List.length_set]; exact h)]
  exact List.getElem_set_self _

theorem getD_set_ne_q (l : List ℚ) (i w : Nat) (b : ℚ) (hne : w ≠ i) :
    (l.set i b).getD w 0 = l.getD w 0 := by
  by_cases hw : w < l.length
  · rw [List.getD_eq_getElem _ _ (by rw [List.length_set]; exact hw),
      List.getD_eq_getElem _ _ hw]
    exact List.getElem_set_ne (fun h => hne h.symm) _
  · have h1 : l.length ≤ w := Nat.le_of_not_lt hw
    rw [List.getD_eq_getElem?_getD, List.getD_eq_getElem?_getD,
      List.getElem?_eq_none (by rw [List.length_set]; exact h1),
      List.getElem?_eq_none h1]

theorem zipMap_getD {α β γ : Type} (f : α → β → γ) (xs : List α)
    (ys : List β) (r : Nat) (hx : r < xs.length) (hy : r < ys.length)
    (da : α) (db : β) (dc : γ) :
    ((xs.zip ys).map (fun p => f p.1 p.2)).getD r dc
      = f (xs.getD r da) (ys.getD r db) := by
  have hz : r < (xs.zip ys).length := by
    rw [List.length_zip]
    exact lt_min hx hy
  rw [List.getD_eq_getElem _ _ (by rw [List.length_map]; exact hz),
    List.getD_eq_getElem _ _ hx, List.getD_eq_getElem _ _ hy,
    List.getElem_map, List.getElem_zip]

theorem bool_at (row : List ℚ) (u : ℚ) (i : Nat) (h : i < row.length) :
    ((cumsum (row.map (fun x => x / row.sum))).map
        (fun c => decide (u < c))).getD i false
      = decide (u < ((row.map (fun x => x / row.sum)).take (i + 1)).sum) := by
  have h1 : i < (cumsum (row.map (fun x => x / row.sum))).length := by
    rw [length_cumsum, List.length_map]
    exact h
  rw [List.getD_eq_getElem _ _ (by rw [List.length_map]; exact h1),
    List.getElem_map, getElem_cumsum]

theorem vSampleRow_lt_and_pos (row : List ℚ) (u : ℚ)
    (hnn : ∀ x ∈ row, 0 ≤ x) (hs : 0 < row.sum) (hu0 : 0 ≤ u)
    (hu1 : u < 1) :
    vSampleRow row u < row.length ∧ 0 < row.getD (vSampleRow row u) 0 := by
  have hne : row ≠ [] := by
    intro h
    rw [h] at hs
    simp at hs
  have hlen : 0 < row.length := List.length_pos.mpr hne
  have hplen : (row.map (fun x => x / row.sum)).length = row.length :=
    List.length_map _ _
  have hlast : row.length - 1 < row.length := by omega
  have hsum1 :
      ((row.map (fun x => x / row.sum)).take (row.length - 1 + 1)).sum = 1 := by
    have he : row.length - 1 + 1 = row.length := by omega
    rw [he, ← hplen, List.take_length, sum_map_div, div_self hs.ne']
  have hlen2 : row.length - 1 <
      ((cumsum (row.map (fun x => x / row.sum))).map
        (fun c => decide (u < c))).length := by
    rw [List.length_map, length_cumsum, hplen]
    omega
  have hmem : true ∈ (cumsum (row.map (fun x => x / row.sum))).map
      (fun c => decide (u < c)) := by
    have hb := bool_at row u (row.length - 1) hlast
    rw [hsum1] at hb
    have hbt : ((cumsum (row.map (fun x => x / row.sum))).map
        (fun c => decide (u < c))).getD (row.length - 1) false = true := by
      rw [hb]
      exact decide_eq_true hu1
    rw [List.getD_eq_getElem _ _ hlen2] at hbt
    rw [← hbt]
    exact List.getElem_mem hlen2
  obtain ⟨k, hk⟩ := firstTrue_isSome hmem
  have hv : vSampleRow row u = k := by
    simp only [vSampleRow, npArgmaxBool]
    rw [hk]
    rfl
  obtain ⟨hklt, hktrue, hkmin⟩ := firstTrue_spec hk
  have hklen : k < row.length := by
    rw [List.length_map, length_cumsum, hplen] at hklt
    exact hklt
  rw [hv]
  refine ⟨hklen, ?_⟩
  have hlt : u < ((row.map (fun x => x / row.sum)).take (k + 1)).sum := by
    rw [bool_at row u k hklen] at hktrue
    exact of_decide_eq_true hktrue
  have hk2 : k < (row.map (fun x => x / row.sum)).length := by
    rw [hplen]
    exact hklen
  have hstep : ((row.map (fun x => x / row.sum)).take (k + 1)).sum
      = ((row.map (fun x => x / row.sum)).take k).sum
        + row.getD k 0 / row.sum := by
    rw [List.sum_take_succ _ k hk2, List.getElem_map,
      List.getD_eq_getElem _ _ hklen]
  have hprev : ((row.map (fun x => x / row.sum)).take k).sum ≤ u := by
    cases k with
    | zero => simpa using hu0
    | succ j =>
      have hj := hkmin j (by omega)
      rw [bool_at row u j (by omega)] at hj
      refine le_of_not_lt (fun hcon => ?_)
      rw [decide_eq_true hcon] at hj
      cases hj
  have hdivpos : 0 < row.getD k 0 / row.sum := by
    rw [hstep] at hlt
    linarith
  rcases div_pos_iff.mp hdivpos with ⟨h1, _⟩ | ⟨_, h2⟩
  · exact h1
  · linarith

theorem vSampleRow_zero_sum (row : List ℚ) (u : ℚ)
    (hzero : row.sum = 0) (hu0 : 0 ≤ u) :
    vSampleRow row u = 0 := by
  have hprobs : ∀ c ∈ cumsum (row.map (fun x => x / row.sum)), c = 0 := by
    intro c hc
    simp only [cumsum, List.mem_map, List.mem_range] at hc
    obtain ⟨i, hi, hceq⟩ := hc
    rw [← hceq]
    apply List.sum_eq_zero
    intro x hx
    have hx2 := List.mem_of_mem_take hx
    simp only [List.mem_map] at hx2
    obtain ⟨y, hy, hxy⟩ := hx2
    rw [← hxy, hzero, div_zero]
  have hbools : ∀ b ∈ (cumsum (row.map (fun x => x / row.sum))).map
      (fun c => decide (u < c)), b = false := by
    intro b hb
    simp only [List.mem_map] at hb
    obtain ⟨c, hc, hbc⟩ := hb
    rw [← hbc, hprobs c hc]
    exact decide_eq_false (not_lt.mpr hu0)
  simp only [vSampleRow, npArgmaxBool]
  rw [firstTrue_eq_none hbools]
  rfl

theorem sample_pair_row_ne (dk : List ℚ) (anchor : Nat) (u : ℚ)
    (hnn : ∀ x ∈ dk, 0 ≤ x)
    (i j : Nat) (hij : i ≠ j) (hi : dk.getD i 0 ≠ 0) (hj : dk.getD j 0 ≠ 0)
    (hu0 : 0 ≤ u) (hu1 : u < 1) :
    vSampleRow (dk.set anchor 0) u ≠ anchor := by
  obtain ⟨w, hwa, hw⟩ : ∃ w, w ≠ anchor ∧ dk.getD w 0 ≠ 0 := by
    by_cases hia : i = anchor
    · exact ⟨j, fun h => hij (hia.trans h.symm), hj⟩
    · exact ⟨i, hia, hi⟩
  have hwlt : w < dk.length := by
    by_contra hcon
    apply hw
    rw [List.getD_eq_getElem?_getD,
      List.getElem?_eq_none (Nat.le_of_not_lt hcon)]
    rfl
  have hnnz : ∀ x ∈ dk.set anchor 0, 0 ≤ x := by
    intro x hx
    rcases List.mem_or_eq_of_mem_set hx with h | h
    · exact hnn x h
    · rw [h]
  have hwz : (dk.set anchor 0).getD w 0 = dk.getD w 0 :=
    getD_set_ne_q dk anchor w 0 hwa
  have hw0 : 0 ≤ dk.getD w 0 := by
    rw [List.getD_eq_getElem _ _ hwlt]
    exact hnn _ (List.getElem_mem hwlt)
  have hwpos : 0 < (dk.set anchor 0).getD w 0 := by
    rw [hwz]
    exact lt_of_le_of_ne hw0 (Ne.symm hw)
  have hwlt2 : w < (dk.set anchor 0).length := by
    rw [List.length_set]
    exact hwlt
  have hsum : 0 < (dk.set anchor 0).sum := by
    have hmem : (dk.set anchor 0).getD w 0 ∈ dk.set anchor 0 := by
      rw [List.getD_eq_getElem _ _ hwlt2]
      exact List.getElem_mem hwlt2
    exact sum_pos_of_mem _ hnnz _ hmem hwpos
  obtain ⟨hlt, hpos⟩ := vSampleRow_lt_and_pos (dk.set anchor 0) u hnnz hsum hu0 hu1
  intro hcon
  rw [hcon] at hpos hlt
  have hanchor_lt : anchor < dk.length := by
    rw [List.length_set] at hlt
    exact hlt
  rw [getD_set_self_q dk anchor 0 hanchor_lt] at hpos
  exact lt_irrefl 0 hpos

theorem length_flatMap_const {α β : Type} (l : List α) (f : α → List β)
    (n : Nat) (h : ∀ x ∈ l, (f x).length = n) :
    (l.flatMap f).length = l.length * n := by
  induction l with
  | nil => simp
  | cons a as ih =>
    have ha := h a (by simp)
    have has := ih (fun x hx => h x (by simp [hx]))
    simp only [List.flatMap_cons, List.length_append, List.length_cons, ha,
      has]
    ring

theorem mem_zipWith {α β γ : Type} {f : α → β → γ} :
    ∀ {a : List α} {b : List β} {c : γ},
      c ∈ List.zipWith f a b → ∃ x ∈ a, ∃ y ∈ b, c = f x y := by
  intro a
  induction a with
  | nil =>
    intro b c h
    simp at h
  | cons x xs ih =>
    intro b c h
    cases b with
    | nil => simp at h
    | cons y ys =>
      rw [List.zipWith_cons_cons] at h
      rcases List.mem_cons.mp h with h1 | h1
      · exact ⟨x, by simp, y, by simp, h1⟩
      · obtain ⟨x0, hx0, y0, hy0, hc⟩ := ih h1
        exact ⟨x0, by simp [hx0], y0, by simp [hy0], hc⟩

theorem shape3_concatLast {a b : Tensor3} {k t n : Nat}
    (ha : shape3 a k t n) (hb : shape3 b k t n) :
    shape3 (concatLast a b) k t (2 * n) := by
  obtain ⟨ha1, ha2, ha3⟩ := ha
  obtain ⟨hb1, hb2, hb3⟩ := hb
  refine ⟨?_, ?_, ?_⟩
  · rw [concatLast, List.length_zipWith, ha1, hb1, min_self]
  · intro blk hblk
    obtain ⟨x, hx, y, hy, hxy⟩ := mem_zipWith hblk
    rw [hxy, List.length_zipWith, ha2 x hx, hb2 y hy, min_self]
  · intro blk hblk rowx hrowx
    obtain ⟨x, hx, y, hy, hxy⟩ := mem_zipWith hblk
    rw [hxy] at hrowx
    obtain ⟨p, hp, q, hq, hpq⟩ := mem_zipWith hrowx
    rw [hpq, List.length_append, ha3 x hx p hp, hb3 y hy q hq]
    ring

theorem reshape3_some (rows : List (List ℚ)) (k t n : Nat)
    (hn : 0 < n) (ht : 0 < t) (hlen : rows.length = k * t)
    (hw : ∀ r ∈ rows, r.length = n) :
    reshape3 rows k t n
      = some (chunkList2 t (chunkList n (rows.flatMap id))) ∧
      shape3 (chunkList2 t (chunkList n (rows.flatMap id))) k t n := by
  have hflat : (rows.flatMap id).length = k * t * n := by
    rw [length_flatMap_const rows id n hw, hlen]
  obtain ⟨hc1, hc2, hc3⟩ := chunkList_shape hn (k * t) (rows.flatMap id) hflat
  obtain ⟨hd1, hd2, hd3⟩ :=
    chunkList2_shape ht k (chunkList n (rows.flatMap id)) hc1
  constructor
  · simp only [reshape3]
    rw [if_pos hflat]
  · refine ⟨hd1, hd2, ?_⟩
    intro blk hblk rowx hrowx
    exact hc2 rowx (hd3 blk hblk rowx hrowx)

theorem draftGenerateData_shapes (g : DraftGen) (indices : List Nat)
    (hn : 0 < g.packCols) (ht : 0 < g.t)
    (hw : ∀ r ∈ g.rows,
      r.pack_card.length = g.packCols ∧ r.pool.length = g.packCols)
    (hsel : ∀ d ∈ indices.map (fun i => g.draft_ids.getD i 0),
      (g.rows.filter (fun r => r.draft_id = d)).length = g.t) :
    ∃ fi pos pk w,
      draftGenerateData g indices = some ((fi, pos), pk, w) ∧
      shape3 fi indices.length g.t (2 * g.packCols) ∧
      shape3 pos indices.length g.t 1 ∧
      shape3 pk indices.length g.t 1 := by
  have hsellen : (draftSel g indices).length = indices.length * g.t := by
    rw [draftSel, locGather,
      length_flatMap_const _ _ g.t hsel, List.length_map]
  have hmemsel : ∀ r ∈ draftSel g indices, r ∈ g.rows := by
    intro r hr
    rw [draftSel, locGather] at hr
    obtain ⟨d, hd, hrd⟩ := List.mem_flatMap.mp hr
    exact (List.mem_filter.mp hrd).1
  obtain ⟨hpacks, hpacks_shape⟩ :=
    reshape3_some ((draftSel g indices).map (fun r => r.pack_card))
      indices.length g.t g.packCols hn ht
      (by rw [List.length_map]; exact hsellen)
      (by
        intro rowx hrowx
        obtain ⟨r0, hr0, hrr⟩ := List.mem_map.mp hrowx
        rw [← hrr]
        exact (hw r0 (hmemsel r0 hr0)).1)
  obtain ⟨hpools, hpools_shape⟩ :=
    reshape3_some ((draftSel g indices).map (fun r => r.pool))
      indices.length g.t g.packCols hn ht
      (by rw [List.length_map]; exact hsellen)
      (by
        intro rowx hrowx
        obtain ⟨r0, hr0, hrr⟩ := List.mem_map.mp hrowx
        rw [← hrr]
        exact (hw r0 (hmemsel r0 hr0)).2)
  obtain ⟨hpicks, hpicks_shape⟩ :=
    reshape3_some ((draftSel g indices).map (fun r => [(r.pick : ℚ)]))
      indices.length g.t 1 (by omega) ht
      (by rw [List.length_map, hsellen])
      (by
        intro rowx hrowx
        obtain ⟨r0, hr0, hrr⟩ := List.mem_map.mp hrowx
        simp [← hrr])
  obtain ⟨hposits, hposits_shape⟩ :=
    reshape3_some ((draftSel g indices).map
        (fun r => [(posIndexOf g.maxPickNumber r : ℚ)]))
      indices.length g.t 1 (by omega) ht
      (by rw [List.length_map, hsellen])
      (by
        intro rowx hrowx
        obtain ⟨r0, hr0, hrr⟩ := List.mem_map.mp hrowx
        simp [← hrr])
  refine ⟨concatLast
      (chunkList2 g.t (chunkList g.packCols
        (((draftSel g indices).map (fun r => r.pack_card)).flatMap id)))
      (chunkList2 g.t (chunkList g.packCols
        (((draftSel g indices).map (fun r => r.pool)).flatMap id))),
    chunkList2 g.t (chunkList 1
      (((draftSel g indices).map
        (fun r => [(posIndexOf g.maxPickNumber r : ℚ)])).flatMap id)),
    chunkList2 g.t (chunkList 1
      (((draftSel g indices).map (fun r => [(r.pick : ℚ)])).flatMap id)),
    renormWeights g.weights indices, ?_, ?_, ?_, ?_⟩
  · simp only [draftGenerateData]
    rw [hpacks, hpools, hpicks, hposits]
  · exact shape3_concatLast hpacks_shape hpools_shape
  · exact hposits_shape
  · exact hpicks_shape

theorem gvs_getD (m : List (List ℚ)) (us : List ℚ) (r : Nat)
    (h1 : r < m.length) (h2 : r < us.length) :
    (get_vectorized_sample m us).getD r 0
      = vSampleRow (m.getD r []) (us.getD r 0) :=
  zipMap_getD vSampleRow m us r h1 h2 [] 0 0

theorem buildVocab_fst_nodup (cards : List CardRow) (ex : Bool)
    (h : (cards.map Prod.fst).Nodup) :
    ((buildVocab cards ex).map Prod.fst).Nodup := by
  have hperm : (cards.insertionSort (fun a b => a.1 ≤ b.1)).Perm cards :=
    List.perm_insertionSort _ cards
  have hsortN : ((cards.insertionSort (fun a b => a.1 ≤ b.1)).map
      Prod.fst).Nodup := ((hperm.map Prod.fst).nodup_iff).mpr h
  cases ex with
  | false => simpa [buildVocab] using hsortN
  | true =>
    have hv : buildVocab cards true
        = ((cards.insertionSort (fun a b => a.1 ≤ b.1)).drop 5).map
          (fun r => (r.1 - 5, r.2)) := by
      simp [buildVocab]
    rw [hv, List.map_map]
    have hcomp : (Prod.fst ∘ fun r : CardRow => (r.1 - 5, r.2))
        = ((fun x : Int => x - 5) ∘ Prod.fst) := rfl
    rw [hcomp, ← List.map_map]
    apply List.Nodup.map
    · intro a b hab
      have hab2 : a - 5 = b - 5 := hab
      omega
    · rw [List.map_drop]
      exact (List.drop_sublist 5 _).nodup hsortN

theorem roundtrip_of_nodup (v : List CardRow) (nm : String) (b1 b2 : Bool)
    (hvN : (v.map Prod.fst).Nodup) (hmem : nm ∈ v.map Prod.snd) :
    (card_name_to_idx v nm b1).bind
      (fun i => card_idx_to_name v i b2) = some nm := by
  obtain ⟨r, hr, hrn⟩ := List.mem_map.mp hmem
  have hfil_ne : v.filter (fun q => q.2 = nm) ≠ [] := by
    intro h
    have h2 := List.filter_eq_nil_iff.mp h r hr
    simp [hrn] at h2
  have h1 : card_name_to_idx v nm b1
      = some ((v.filter (fun q => q.2 = nm)).head hfil_ne).1 := by
    rw [card_name_to_idx, List.head?_eq_head hfil_ne]
    rfl
  have hr0mem := List.head_mem hfil_ne
  have hr0v : (v.filter (fun q => q.2 = nm)).head hfil_ne ∈ v :=
    (List.mem_filter.mp hr0mem).1
  have hr0n : ((v.filter (fun q => q.2 = nm)).head hfil_ne).2 = nm := by
    have := (List.mem_filter.mp hr0mem).2
    simpa using this
  rw [h1]
  show card_idx_to_name v
    ((v.filter (fun q => q.2 = nm)).head hfil_ne).1 b2 = some nm
  have hfil2_ne : v.filter
      (fun q => q.1 = ((v.filter (fun q0 => q0.2 = nm)).head hfil_ne).1)
      ≠ [] := by
    intro h
    have h2 := List.filter_eq_nil_iff.mp h _ hr0v
    simp at h2
  have hr1mem := List.head_mem hfil2_ne
  have hr1v : (v.filter (fun q =>
      q.1 = ((v.filter (fun q0 => q0.2 = nm)).head hfil_ne).1)).head hfil2_ne
      ∈ v := (List.mem_filter.mp hr1mem).1
  have hr1i : ((v.filter (fun q =>
      q.1 = ((v.filter (fun q0 => q0.2 = nm)).head hfil_ne).1)).head
        hfil2_ne).1
      = ((v.filter (fun q0 => q0.2 = nm)).head hfil_ne).1 := by
    have := (List.mem_filter.mp hr1mem).2
    simpa using this
  have heqr : (v.filter (fun q =>
      q.1 = ((v.filter (fun q0 => q0.2 = nm)).head hfil_ne).1)).head hfil2_ne
      = (v.filter (fun q0 => q0.2 = nm)).head hfil_ne :=
    List.inj_on_of_nodup_map hvN hr1v hr0v hr1i
  have h2 : card_idx_to_name v
      ((v.filter (fun q0 => q0.2 = nm)).head hfil_ne).1 b2
      = some (((v.filter (fun q =>
          q.1 = ((v.filter (fun q0 => q0.2 = nm)).head hfil_ne).1)).head
            hfil2_ne).2) := by
    rw [card_idx_to_name, List.head?_eq_head hfil2_ne]
    rfl
  rw [h2, heqr, hr0n]

/-! ### Claim theorems -/

/-- Claim C1: for every generator, `length()` equals
`floor(total_size / batch_size)`, where `total_size` is the dataset row
count for the base and deck generators and the number of distinct draft ids
for the draft generator (so draft batches always contain whole drafts); a
batch index yields a full `batch_size`-sized index slice exactly when it is
below `length()`, so no generator yields more than `length()` batches. -/
theorem C1_batch_count (cards : List CardRow) (ex sh tf : Bool) (bs : Nat)
    (nrows : Nat) (js : List Nat)
    (ddata : List DeckRow) (dmlw : Option (List ℚ)) (sb : Bool)
    (djs : List Nat)
    (tdata : List DraftRow) (tmlw : Option (List ℚ)) (tjs1 tjs2 : List Nat)
    (hbs : 0 < bs) :
    numBatches (mkGenCore cards ex bs sh tf nrows js) = nrows / bs ∧
    numBatches (mkDeckGen ddata dmlw cards bs sh tf ex sb djs).core
      = ddata.length / bs ∧
    numBatches (mkDraftGen tdata tmlw cards bs sh tf ex tjs1 tjs2).core
      = (tdata.map (fun r => r.draft_id)).toFinset.card / bs ∧
    (∀ b, (getBatchIndices (mkGenCore cards ex bs sh tf nrows js) b).length
        = bs ↔ b < numBatches (mkGenCore cards ex bs sh tf nrows js)) ∧
    (∀ b, (getBatchIndices
        (mkDraftGen tdata tmlw cards bs sh tf ex tjs1 tjs2).core b).length
        = bs
      ↔ b < numBatches
          (mkDraftGen tdata tmlw cards bs sh tf ex tjs1 tjs2).core) := by
  refine ⟨rfl, rfl, ?_, ?_, ?_⟩
  · show (npUnique (tdata.map (fun r => r.draft_id))).length / bs = _
    rw [length_npUnique_eq_card]
  · intro b
    exact getBatch_full_iff _ (reset_indices_length nrows sh js) hbs b
  · intro b
    exact getBatch_full_iff _ (reset_indices_length _ sh tjs2) hbs b

/-- Witness for C1 at concrete inputs: 5 base rows with batch size 2 give 2
batches; 3 deck rows give 1 batch; 4 draft rows over 3 distinct draft ids
give 1 batch; batch index 1 of the base generator is a full batch iff
`1 < length()`. -/
theorem C1_batch_count_witness :
    numBatches (mkGenCore [] true 2 false true 5 []) = 2 ∧
    numBatches (mkDeckGen [⟨[], [], [], []⟩, ⟨[], [], [], []⟩,
        ⟨[], [], [], []⟩] none [] 2 false true true false []).core = 1 ∧
    numBatches (mkDraftGen
        [⟨0, 0, [], [], 0, 0, 0⟩, ⟨0, 1, [], [], 0, 0, 1⟩,
         ⟨1, 0, [], [], 0, 0, 0⟩, ⟨2, 0, [], [], 0, 0, 0⟩]
        none [] 2 false true true [] []).core = 1 ∧
    ((getBatchIndices (mkGenCore [] true 2 false true 5 []) 1).length = 2
      ↔ 1 < numBatches (mkGenCore [] true 2 false true 5 [])) := by
  obtain ⟨h1, h2, h3, h4, h5⟩ := C1_batch_count [] true false true 2 5 []
    [⟨[], [], [], []⟩, ⟨[], [], [], []⟩, ⟨[], [], [], []⟩] none false []
    [⟨0, 0, [], [], 0, 0, 0⟩, ⟨0, 1, [], [], 0, 0, 1⟩,
     ⟨1, 0, [], [], 0, 0, 0⟩, ⟨2, 0, [], [], 0, 0, 0⟩] none [] []
    (by decide)
  refine ⟨?_, ?_, ?_, h4 1⟩
  · rw [h1]
  · rw [h2]
    decide
  · rw [h3]
    decide

/-- Claim C2: for every batch produced by the draft generator from `k`
draft ids, each referenced draft id having exactly `t` rows, the combined
feature tensor has shape `(k, t, 2*n)`, the pick-label tensor has shape
`(k, t, 1)` and the position tensor has shape `(k, t, 1)`, where `n` is the
`pack_card` column count and `t` — a constant of the generator — is one
more than the maximum `position` value across the whole dataset. -/
theorem C2_draft_batch_shapes (data : List DraftRow) (mlw : Option (List ℚ))
    (cards : List CardRow) (bs : Nat) (sh tf ex : Bool) (js1 js2 : List Nat)
    (indices : List Nat) (n t : Nat)
    (hn_def : n = ((data.head?).map (fun r => r.pack_card.length)).getD 0)
    (ht_def : t = listMax (data.map (fun r => r.position)) + 1)
    (hn : 0 < n)
    (hw : ∀ r ∈ data, r.pack_card.length = n ∧ r.pool.length = n)
    (hsel : ∀ d ∈ indices.map (fun i =>
        (npUnique (data.map (fun r => r.draft_id))).getD i 0),
      (data.filter (fun r => r.draft_id = d)).length = t) :
    ∃ fi pos pk w,
      draftGenerateData (mkDraftGen data mlw cards bs sh tf ex js1 js2)
          indices = some ((fi, pos), pk, w) ∧
        shape3 fi indices.length t (2 * n) ∧
        shape3 pos indices.length t 1 ∧
        shape3 pk indices.length t 1 ∧
        (mkDraftGen data mlw cards bs sh tf ex js1 js2).t
          = listMax (data.map (fun r => r.position)) + 1 := by
  subst hn_def
  subst ht_def
  obtain ⟨fi, pos, pk, w, h1, h2, h3, h4⟩ :=
    draftGenerateData_shapes (mkDraftGen data mlw cards bs sh tf ex js1 js2)
      indices hn (Nat.succ_pos _) hw hsel
  exact ⟨fi, pos, pk, w, h1, h2, h3, h4, rfl⟩

/-- Witness for C2: a one-row dataset (one draft id, one position, one
card column) batched as the single draft id yields a `(1, 1, 2)` feature
tensor and `(1, 1, 1)` pick and position tensors. -/
theorem C2_draft_batch_shapes_witness :
    ∃ fi pos pk w,
      draftGenerateData (mkDraftGen [⟨0, 0, [1], [0], 2, 0, 0⟩] none [] 1
          false true true [] []) [0] = some ((fi, pos), pk, w) ∧
        shape3 fi 1 1 2 ∧ shape3 pos 1 1 1 ∧ shape3 pk 1 1 1 ∧
        (mkDraftGen [⟨0, 0, [1], [0], 2, 0, 0⟩] none [] 1 false true true
          [] []).t
          = listMax (([⟨0, 0, [1], [0], 2, 0, 0⟩] : List DraftRow).map
              (fun r => r.position)) + 1 :=
  C2_draft_batch_shapes [⟨0, 0, [1], [0], 2, 0, 0⟩] none [] 1 false true
    true [] [] [0] 1 1 (by decide) (by decide) (by decide) (by decide)
    (by simp [npUnique])

/-- Claim C3: for every deck batch row whose deck vector and sideboard
vector each have at least two distinct nonzero entries, the sampled
positive index differs from the anchor index and the sampled negative index
differs from the anchor index, for every outcome of the uniform draws (the
draws for the positive and negative samples lie in `[0, 1)`; entries of the
composition vectors are nonnegative counts). -/
theorem C3_pair_sampling (decks sideboards : List (List ℚ))
    (u1 u2 u3 : List ℚ) (r : Nat)
    (hrd : r < decks.length) (hrs : r < sideboards.length)
    (hr1 : r < u1.length) (hr2 : r < u2.length) (hr3 : r < u3.length)
    (hnnd : ∀ x ∈ decks.getD r [], 0 ≤ x)
    (hnns : ∀ x ∈ sideboards.getD r [], 0 ≤ x)
    (i j : Nat) (hij : i ≠ j)
    (hdi : (decks.getD r []).getD i 0 ≠ 0)
    (hdj : (decks.getD r []).getD j 0 ≠ 0)
    (p q : Nat) (hpq : p ≠ q)
    (hsp : (sideboards.getD r []).getD p 0 ≠ 0)
    (hsq : (sideboards.getD r []).getD q 0 ≠ 0)
    (hu2a : 0 ≤ u2.getD r 0) (hu2b : u2.getD r 0 < 1)
    (hu3a : 0 ≤ u3.getD r 0) (hu3b : u3.getD r 0 < 1) :
    (sample_card_pairs decks sideboards u1 u2 u3).2.1.getD r 0
      ≠ (sample_card_pairs decks sideboards u1 u2 u3).1.getD r 0 ∧
    (sample_card_pairs decks sideboards u1 u2 u3).2.2.getD r 0
      ≠ (sample_card_pairs decks sideboards u1 u2 u3).1.getD r 0 := by
  have hran : r < (get_vectorized_sample decks u1).length := by
    rw [get_vectorized_sample, List.length_map, List.length_zip]
    exact lt_min hrd hr1
  have hproj1 : (sample_card_pairs decks sideboards u1 u2 u3).1
      = get_vectorized_sample decks u1 := rfl
  have hproj2 : (sample_card_pairs decks sideboards u1 u2 u3).2.1
      = get_vectorized_sample
          ((decks.zip (get_vectorized_sample decks u1)).map
            (fun p0 => p0.1.set p0.2 0)) u2 := rfl
  have hproj3 : (sample_card_pairs decks sideboards u1 u2 u3).2.2
      = get_vectorized_sample
          ((sideboards.zip (get_vectorized_sample decks u1)).map
            (fun p0 => p0.1.set p0.2 0)) u3 := rfl
  have hdz : ((decks.zip (get_vectorized_sample decks u1)).map
      (fun p0 => p0.1.set p0.2 0)).getD r []
      = (decks.getD r []).set
          ((get_vectorized_sample decks u1).getD r 0) 0 :=
    zipMap_getD (fun x y => x.set y 0) decks _ r hrd hran [] 0 []
  have hsz : ((sideboards.zip (get_vectorized_sample decks u1)).map
      (fun p0 => p0.1.set p0.2 0)).getD r []
      = (sideboards.getD r []).set
          ((get_vectorized_sample decks u1).getD r 0) 0 :=
    zipMap_getD (fun x y => x.set y 0) sideboards _ r hrs hran [] 0 []
  have hx2 : r < ((decks.zip (get_vectorized_sample decks u1)).map
      (fun p0 => p0.1.set p0.2 0)).length := by
    rw [List.length_map, List.length_zip]
    exact lt_min hrd hran
  have hx3 : r < ((sideboards.zip (get_vectorized_sample decks u1)).map
      (fun p0 => p0.1.set p0.2 0)).length := by
    rw [List.length_map, List.length_zip]
    exact lt_min hrs hran
  constructor
  · rw [hproj2, hproj1, gvs_getD _ u2 r hx2 hr2, hdz]
    exact sample_pair_row_ne (decks.getD r []) _ (u2.getD r 0) hnnd i j hij
      hdi hdj hu2a hu2b
  · rw [hproj3, hproj1, gvs_getD _ u3 r hx3 hr3, hsz]
    exact sample_pair_row_ne (sideboards.getD r []) _ (u3.getD r 0) hnns p q
      hpq hsp hsq hu3a hu3b

/-- Witness for C3: a deck row `[1, 1]` and sideboard row `[2, 3]` (two
distinct nonzero entries each) with concrete draws. -/
theorem C3_pair_sampling_witness :
    (sample_card_pairs [[1, 1]] [[2, 3]] [0] [0] [0]).2.1.getD 0 0
      ≠ (sample_card_pairs [[1, 1]] [[2, 3]] [0] [0] [0]).1.getD 0 0 ∧
    (sample_card_pairs [[1, 1]] [[2, 3]] [0] [0] [0]).2.2.getD 0 0
      ≠ (sample_card_pairs [[1, 1]] [[2, 3]] [0] [0] [0]).1.getD 0 0 :=
  C3_pair_sampling [[1, 1]] [[2, 3]] [0] [0] [0] 0 (by decide)
    (by decide) (by decide) (by decide) (by decide) (by decide) (by decide)
    0 1 (by decide) (by decide) (by decide) 0 1 (by decide) (by decide)
    (by decide) (by decide) (by decide) (by decide) (by decide)

/-- Claim C4 (code bug): `create_train_and_val_gens` computes the
validation batch size as `test_rows // n_train_batches` with no guard.  At
9 training rows, training batch size 1 (hence 9 training batches) and 3
validation rows, the validation generator is built with batch size
`3 // 9 = 0`, and every batch slice of that generator is empty — the
non-positive batch size is propagated into slicing instead of being
clamped to 1 or raising an explicit error. -/
theorem C4_val_batch_size_unguarded :
    ((create_train_and_val_gens 9 (some 3) [] 1 false true true [] []).2).map
        (fun g => (g.batch_size, getBatchIndices g 0, getBatchIndices g 1))
      = some (0, [], []) := by
  rfl

/-- Claim C5: after every call to `reset_indices` — the one at
construction, and the one made by `on_epoch_end` — the stored index set is
a permutation of `range(total_size)`: the identity ordering whenever
shuffling is disabled, and a permutation of `range(total_size)` for every
random outcome whenever shuffling is enabled. -/
theorem C5_epoch_reset (size : Nat) (js : List Nat) (cards : List CardRow)
    (ex : Bool) (bs : Nat) (sh tf : Bool) (nrows : Nat) (js0 : List Nat)
    (g : GenCore) (js1 : List Nat) :
    reset_indices size false js = List.range size ∧
    (reset_indices size true js).Perm (List.range size) ∧
    (reset_indices size sh js).Perm (List.range size) ∧
    (mkGenCore cards ex bs sh tf nrows js0).indices
      = reset_indices nrows sh js0 ∧
    (on_epoch_end g js1).indices = reset_indices g.size g.shuffle js1 :=
  ⟨reset_indices_noshuffle size js, reset_indices_perm size true js,
    reset_indices_perm size sh js, rfl, rfl⟩

/-- Claim C6: for every batch with an importance-weight column present, the
returned sample-weight vector is the positional slice of the weights at the
batch indices divided by the slice's sum — hence it sums to 1 when the
selected weights are positive and the batch is nonempty; with no weight
column the weights stay unset. -/
theorem C6_weight_renormalization (w : List ℚ) (idxs : List Nat)
    (hpos : ∀ i ∈ idxs, 0 < w.getD i 0) (hne : idxs ≠ []) :
    (∃ out, renormWeights (some w) idxs = some out ∧
      out = (idxs.map (fun i => w.getD i 0)).map
        (fun x => x / (idxs.map (fun i => w.getD i 0)).sum) ∧
      out.sum = 1) ∧
    renormWeights none idxs = none := by
  constructor
  · refine ⟨_, rfl, rfl, ?_⟩
    have hsum : 0 < (idxs.map (fun i => w.getD i 0)).sum := by
      apply List.sum_pos
      · intro x hx
        obtain ⟨i0, hi0, hx0⟩ := List.mem_map.mp hx
        rw [← hx0]
        exact hpos i0 hi0
      · intro hcon
        exact hne (List.map_eq_nil_iff.mp hcon)
    rw [sum_map_div, div_self hsum.ne']
  · rfl

/-- Witness for C6: weights `[2, 6]` sliced at `[0, 1]` renormalize to a
vector summing to 1. -/
theorem C6_weight_renormalization_witness :
    ∃ out, renormWeights (some ([2, 6] : List ℚ)) [0, 1] = some out ∧
      out = ([0, 1].map (fun i => ([2, 6] : List ℚ).getD i 0)).map
        (fun x => x / ([0, 1].map
          (fun i => ([2, 6] : List ℚ).getD i 0)).sum) ∧
      out.sum = 1 :=
  (C6_weight_renormalization [2, 6] [0, 1] (by decide) (by decide)).1

/-- Claim C7: for every name present in the generator vocabulary — the card
table sorted by `idx` and, when basic-land exclusion is enabled, with the
first five rows dropped and indices renumbered — looking up its index and
mapping the index back returns the same name (given the card-table
invariant that `idx` values are distinct). -/
theorem C7_card_roundtrip (cards : List CardRow) (ex b1 b2 : Bool)
    (nm : String) (huniq : (cards.map Prod.fst).Nodup)
    (hmem : nm ∈ (buildVocab cards ex).map Prod.snd) :
    (card_name_to_idx (buildVocab cards ex) nm b1).bind
      (fun i => card_idx_to_name (buildVocab cards ex) i b2) = some nm :=
  roundtrip_of_nodup _ nm b1 b2 (buildVocab_fst_nodup cards ex huniq) hmem

/-- Witness for C7: a 7-card table (5 basics plus 2 others) with exclusion
enabled; the name of a surviving card round-trips. -/
theorem C7_card_roundtrip_witness :
    (card_name_to_idx (buildVocab [(0, "plains"), (1, "island"),
        (2, "swamp"), (3, "mountain"), (4, "forest"), (5, "alpha"),
        (6, "beta")] true) "alpha" true).bind
      (fun i => card_idx_to_name (buildVocab [(0, "plains"), (1, "island"),
        (2, "swamp"), (3, "mountain"), (4, "forest"), (5, "alpha"),
        (6, "beta")] true) i true) = some "alpha" :=
  C7_card_roundtrip [(0, "plains"), (1, "island"), (2, "swamp"),
    (3, "mountain"), (4, "forest"), (5, "alpha"), (6, "beta")] true true
    true "alpha" (by decide) (by decide)

/-- Claim C8: for every matrix row of nonnegative entries summing to zero,
the vectorized sampling routine deterministically returns index 0 for that
row, for every value of the uniform draw (numpy produces NaN probabilities
whose comparisons are all false, so the boolean `argmax` falls back to 0;
the model reproduces this through division-by-zero yielding 0). -/
theorem C8_zero_row (mtx : List (List ℚ)) (us : List ℚ) (r : Nat)
    (hr : r < mtx.length) (hru : r < us.length)
    (hnn : ∀ x ∈ mtx.getD r [], 0 ≤ x) (hsum : (mtx.getD r []).sum = 0)
    (hu : 0 ≤ us.getD r 0) :
    (get_vectorized_sample mtx us).getD r 0 = 0 := by
  rw [gvs_getD mtx us r hr hru]
  exact vSampleRow_zero_sum _ _ hsum hu

/-- Witness for C8: the all-zero row `[0, 0]` samples to index 0. -/
theorem C8_zero_row_witness :
    (get_vectorized_sample [[0, 0]] [0]).getD 0 0 = 0 :=
  C8_zero_row [[0, 0]] [0] 0 (by decide) (by decide) (by simp)
    (by simp) (by decide)

/-- Claim C9: `DeckGenerator.generate_data` unconditionally reads the
stored basics matrix `deck_basics`, which exists only when the generator
was constructed with `store_basics=True`; with the default
`store_basics=False` every call to `get_batch` fails (missing attribute)
before producing output. -/
theorem C9_missing_deck_basics (data : List DeckRow)
    (mlw : Option (List ℚ)) (cards : List CardRow) (bs : Nat)
    (sh tf ex : Bool) (js : List Nat) (b : Nat) (idxs : List Nat)
    (u1 u2 u3 : List ℚ) :
    (mkDeckGen data mlw cards bs sh tf ex false js).deck_basics = none ∧
    (mkDeckGen data mlw cards bs sh tf ex true js).deck_basics
      = some (data.map (fun r => r.deckBasics)) ∧
    deckGenerateData (mkDeckGen data mlw cards bs sh tf ex false js)
      idxs u1 u2 u3 = none ∧
    deckGetBatch (mkDeckGen data mlw cards bs sh tf ex false js) b
      u1 u2 u3 = none :=
  ⟨rfl, rfl, rfl, rfl⟩

/-- Claim C10: the `exclude_basics` argument of `card_name_to_idx` and
`card_idx_to_name` has no effect — both lookups return the same result for
either value of the flag, and they are always computed against the
vocabulary filtered once at construction (`self.cards`). -/
theorem C10_exclude_basics_ignored (v : List CardRow) (nm : String)
    (i : Int) (b1 b2 : Bool) (cards : List CardRow) (ex tf sh : Bool)
    (bs nrows : Nat) (js : List Nat) :
    card_name_to_idx v nm b1 = card_name_to_idx v nm b2 ∧
    card_idx_to_name v i b1 = card_idx_to_name v i b2 ∧
    (mkGenCore cards ex bs sh tf nrows js).cards = buildVocab cards ex :=
  ⟨rfl, rfl, rfl⟩

end MtgGen
